import Mathlib

set_option maxRecDepth 4000

/-!
Verification of the Scrambler scoring and aggregation core (src/app.js).

The JavaScript numeric values are modelled over `ℚ` (ideal decimal
arithmetic).  A raw form value, which in JS may be an empty string, a
non-numeric/non-finite value, or a finite number, is modelled by `RawVal`;
`RawVal.toNum` is the semantics of JS `Number(...)` restricted to the
finiteness information the code inspects (`Number("") = 0`,
non-finite values have no rational image).  `Option ℚ` stands for a JS
number that is either finite (`some q`) or non-finite (`none`).
-/

namespace Scrambler

/-- A raw input field value as it reaches the numeric helpers:
an empty string, a value whose `Number(...)` image is non-finite
(`NaN`/`Infinity`/missing field), or a finite numeric value. -/
inductive RawVal
  | empty
  | nonfinite
  | val (q : ℚ)
deriving DecidableEq

/-- JS `Number(v)`, keeping only the information the code inspects:
`none` means the result is non-finite.  `Number("") = 0`. -/
def RawVal.toNum : RawVal → Option ℚ
  | .empty => some 0
  | .nonfinite => none
  | .val q => some q

/-- src/app.js:44-47 `num(v)`: `Number(v)` if finite, else `0`. -/
def num (v : Option ℚ) : ℚ :=
  match v with
  | some q => q
  | none => 0

/-- src/app.js:48 `round2(x) = Math.round(x*100)/100`.
`Math.round` on exact values is `⌊x + 1/2⌋`. -/
def round2 (x : ℚ) : ℚ := ((Int.floor (x * 100 + 1/2) : ℤ) : ℚ) / 100

/-- src/app.js:131-137 `avgOfTimes(t1,t2,t3)`: map `Number`, keep the
finite values that are `≥ 0`, average them, `0` when none remain. -/
def avgOfTimes (t1 t2 t3 : RawVal) : ℚ :=
  let arr := (([t1, t2, t3].map RawVal.toNum).filterMap id).filter (fun v => 0 ≤ v)
  if arr.length = 0 then 0 else arr.sum / (arr.length : ℚ)

/-- The input record consumed by `computeScore` (src/app.js:140-169).
`failedRun` and the flag fields are booleans in every caller;
the distance and time fields arrive as raw form values. -/
structure RunInput where
  vehicleDistanceCm : RawVal
  time1 : RawVal
  time2 : RawVal
  time3 : RawVal
  bucketBonus : Bool
  failedRun : Bool
  competitionViolationPoints : Bool
  constructionViolationPoints : Bool
deriving DecidableEq

/-- The `breakdown` record of src/app.js:160-167. -/
structure Breakdown where
  distCm : ℚ
  distanceScore : ℚ
  timeAvg : ℚ
  bucket : ℚ
  penalties : ℚ
  failed : Bool
deriving DecidableEq

/-- The result record of src/app.js:157-168. -/
structure ScoreResult where
  total : ℚ
  timeAvg : ℚ
  breakdown : Breakdown
deriving DecidableEq

/-- src/app.js:140-169 `computeScore(inp)`. -/
def computeScore (inp : RunInput) : ScoreResult :=
  let base : ℚ := 100
  let failed := inp.failedRun
  let distCm : ℚ := if failed then 2500 else num inp.vehicleDistanceCm.toNum
  let timeAvg : ℚ := if failed then 0 else avgOfTimes inp.time1 inp.time2 inp.time3
  let distanceScore : ℚ := 2 * distCm
  let timeScore : ℚ := timeAvg
  let bucket : ℚ := if inp.bucketBonus then -100 else 0
  let cv : ℚ := if inp.competitionViolationPoints then 150 else 0
  let conv : ℚ := if inp.constructionViolationPoints then 300 else 0
  let total : ℚ := base + distanceScore + timeScore + bucket + cv + conv
  { total := round2 total
    timeAvg := round2 timeAvg
    breakdown :=
      { distCm := round2 distCm
        distanceScore := round2 distanceScore
        timeAvg := round2 timeAvg
        bucket := bucket
        penalties := cv + conv
        failed := failed } }

/-!
### Aggregation engine (src/app.js:477-596)

JS strings produced by `toFixed` are modelled injectively: `toFixed d x`
renders as the string `(if neg then "-" else "") ++ digits of mag with d
decimals`, so two `FixedStr` values are equal exactly when the rendered
strings are equal.  Per ECMA-262, `toFixed` takes the sign out first and
rounds the magnitude half-up (ties away from zero), e.g. `(-0.04).toFixed(1)`
is the string minus-zero-point-zero, distinct from `(0.04).toFixed(1)`.
-/

/-- The result of JS `x.toFixed(d)` on a finite value: a sign and the
magnitude scaled by `10^d`.  Injective into the rendered strings. -/
structure FixedStr where
  neg : Bool
  mag : ℤ
deriving DecidableEq

/-- ECMA-262 `Number.prototype.toFixed(d)` on a finite value:
strip the sign, then round the scaled magnitude, ties upward. -/
def toFixed (d : ℕ) (x : ℚ) : FixedStr :=
  if x < 0 then ⟨true, Int.floor (-x * 10 ^ d + 1/2)⟩
  else ⟨false, Int.floor (x * 10 ^ d + 1/2)⟩

/-- The numeric value JS `Number(...)` assigns to a rendered `toFixed d`
string (`Number` of the minus-zero string is `-0`, which equals `0`). -/
def FixedStr.den100 (d : ℕ) (f : FixedStr) : ℚ :=
  (if f.neg then -(f.mag : ℚ) else (f.mag : ℚ)) / 10 ^ d

/-- A persisted run, restricted to the fields the aggregation engine reads.
`targetDistanceM` and `score` are JS numbers that the code guards with
`Number.isFinite`, hence `Option ℚ` (`none` = non-finite); the three setup
fields reach `setupKey` only through `Number(x || 0)`, which on a finite
number is the number itself, hence plain `ℚ`. -/
structure Run where
  targetDistanceM : Option ℚ
  carAngleDeg : ℚ
  dialTurns : ℚ
  winds : ℚ
  score : Option ℚ
deriving DecidableEq

/-- src/app.js:478 `approxEq(a,b,t) = Math.abs(a-b) <= t`. -/
def approxEq (a b t : ℚ) : Bool := |a - b| ≤ t

/-- The track grouping key of src/app.js:479-483: the sentinel string
`"(blank)"` for non-finite or zero target, else `mm.toFixed(2)`. -/
inductive TrackKey
  | blank
  | fixed (f : FixedStr)
deriving DecidableEq

/-- src/app.js:479-483 `trackKey(m)`. -/
def trackKey (m : Option ℚ) : TrackKey :=
  match m with
  | none => .blank
  | some mm => if mm = 0 then .blank else .fixed (toFixed 2 mm)

/-- The setup grouping key of src/app.js:484-489: the string
`a.toFixed(1) ++ degree-sign ++ " | " ++ t.toFixed(2) ++ " turns | " ++
w.toFixed(0) ++ " winds"`.  The separators are fixed, and each component
renders injectively, so the string is determined by (and determines) the
triple of `FixedStr` components. -/
structure SetupKey where
  angle : FixedStr
  turns : FixedStr
  winds : FixedStr
deriving DecidableEq

/-- src/app.js:484-489 `setupKey(r)`.  On the finite numbers stored in a
run, the JS guard `x || 0` is the identity (`0 || 0` is `0`). -/
def setupKey (r : Run) : SetupKey :=
  { angle := toFixed 1 r.carAngleDeg
    turns := toFixed 2 r.dialTurns
    winds := toFixed 0 r.winds }

/-- src/app.js:502-506: the optional target filter.  `targetM = none`
models an empty filter input (filter inactive); `tol = none` models an
empty tolerance input.  `tol !== null && tol > 0` selects the supplied
tolerance, otherwise the default `0.005` is used. -/
def filterRuns (runs : List Run) (targetM tol : Option ℚ) : List Run :=
  match targetM with
  | none => runs
  | some t =>
    match tol with
    | some tv =>
      if 0 < tv then
        runs.filter (fun r => r.targetDistanceM.isSome && approxEq (num r.targetDistanceM) t tv)
      else
        runs.filter (fun r => r.targetDistanceM.isSome && approxEq (num r.targetDistanceM) t (1/200))
    | none =>
      runs.filter (fun r => r.targetDistanceM.isSome && approxEq (num r.targetDistanceM) t (1/200))

/-- JS `Map` keys in first-insertion order: append a key if new. -/
def insertKey {α : Type} [DecidableEq α] (ks : List α) (k : α) : List α :=
  if k ∈ ks then ks else ks ++ [k]

/-- The keys of the `byTrack` map of src/app.js:515-520, in insertion
order. -/
def trackKeysOf (runs : List Run) : List TrackKey :=
  runs.foldl (fun ks r => insertKey ks (trackKey r.targetDistanceM)) []

/-- The members of one `byTrack` bucket (src/app.js:516-519): the runs
whose track key is `k`, in run order. -/
def trackGroup (runs : List Run) (k : TrackKey) : List Run :=
  runs.filter (fun r => decide (trackKey r.targetDistanceM = k))

/-- JS `Math.min(...l)` over a list known to be nonempty (the code guards
with a length check). -/
def listMin : List ℚ → ℚ
  | [] => 0
  | x :: xs => xs.foldl min x

/-- One `bySetup` bucket, reduced to the data the ranking loop reads:
its key and its finite scores (`sRuns.map(Number).filter(isFinite)`),
in insertion order of the keys (src/app.js:537-548). -/
abbrev SetupEntry := SetupKey × List ℚ

/-- The keys of the `bySetup` map of src/app.js:537-542, in insertion
order. -/
def setupKeysOf (rs : List Run) : List SetupKey :=
  rs.foldl (fun ks r => insertKey ks (setupKey r)) []

/-- The `bySetup.entries()` sequence of src/app.js:547, each bucket
already mapped to its finite scores (src/app.js:548). -/
def setupGroupsOf (rs : List Run) : List SetupEntry :=
  (setupKeysOf rs).map
    (fun sk => (sk, (rs.filter (fun r => decide (setupKey r = sk))).filterMap Run.score))

/-- The mean `ss.reduce((p,c)=>p+c,0)/ss.length` (src/app.js:550). -/
def avgOf (e : SetupEntry) : ℚ := e.2.sum / (e.2.length : ℚ)

/-- JS `Math.min(...ss)` (src/app.js:551). -/
def minOf (e : SetupEntry) : ℚ := listMin e.2

/-- One strict-improvement update of a running best (src/app.js:553-560):
`Infinity` initialisation is modelled by `none`, so the first candidate
always wins, and later candidates win only on a strict `<`. -/
def rankStep (val : SetupEntry → ℚ) (acc : Option SetupEntry) (e : SetupEntry) : Option SetupEntry :=
  match acc with
  | none => some e
  | some b => if val e < val b then some e else some b

/-- One iteration of the ranking loop of src/app.js:547-561: skip an
entry with no finite score (`if (!ss.length) continue`), else update the
two running bests independently. -/
def rankPairStep (acc : Option SetupEntry × Option SetupEntry) (e : SetupEntry) :
    Option SetupEntry × Option SetupEntry :=
  if e.2.isEmpty then acc
  else (rankStep avgOf acc.1 e, rankStep minOf acc.2 e)

/-- The ranking loop of src/app.js:544-561: walk the setup entries in
insertion order, keeping the running best-by-average and best-by-single. -/
def rankSetups (gs : List SetupEntry) : Option SetupEntry × Option SetupEntry :=
  gs.foldl rankPairStep (none, none)

/-- One output row of the practice summary (src/app.js:579-586).  The
string cells are modelled by the data they render: `none` models the
empty-string cell, `bestSetupByAvg` carries the key, the rounded average
and the sample count, `bestSetupBySingle` the key and the rounded best. -/
structure SummaryRow where
  trackGroupM : TrackKey
  runsCount : ℕ
  avgScore : Option ℚ
  bestScore : Option ℚ
  bestSetupByAvg : Option (SetupKey × ℚ × ℕ)
  bestSetupBySingle : Option (SetupKey × ℚ)
deriving DecidableEq

/-- The body of the per-track loop of src/app.js:530-587 for key `k`. -/
def mkRow (fr : List Run) (k : TrackKey) : SummaryRow :=
  let rs := trackGroup fr k
  let scores := rs.filterMap Run.score
  let n := scores.length
  let gs := setupGroupsOf rs
  { trackGroupM := k
    runsCount := n
    avgScore := if n = 0 then none else some (round2 (scores.sum / (n : ℚ)))
    bestScore := if n = 0 then none else some (round2 (listMin scores))
    bestSetupByAvg := (rankSetups gs).1.map (fun e => (e.1, round2 (avgOf e), e.2.length))
    bestSetupBySingle := (rankSetups gs).2.map (fun e => (e.1, round2 (minOf e))) }

/-- The key comparator of src/app.js:522-526 as a relation: the sentinel
key sorts after everything, other keys by the numeric value `Number(...)`
of their rendered string. -/
def trackLe (a b : TrackKey) : Prop :=
  match a, b with
  | _, .blank => True
  | .blank, .fixed _ => False
  | .fixed x, .fixed y => FixedStr.den100 2 x ≤ FixedStr.den100 2 y

instance : DecidableRel trackLe := fun a b =>
  match a, b with
  | .blank, .blank => .isTrue trivial
  | .fixed _, .blank => .isTrue trivial
  | .blank, .fixed _ => .isFalse (fun h => h)
  | .fixed x, .fixed y => inferInstanceAs (Decidable (FixedStr.den100 2 x ≤ FixedStr.den100 2 y))

instance : IsTotal TrackKey trackLe where
  total a b := by
    cases a <;> cases b <;> simp [trackLe]
    exact le_total _ _

instance : IsTrans TrackKey trackLe where
  trans a b c hab hbc := by
    cases a <;> cases b <;> cases c <;> simp_all [trackLe]
    exact le_trans hab hbc

/-- The sorted key sequence (src/app.js:522-526) and the row list built
from it (src/app.js:530-587).  JS `Array.prototype.sort` is a stable
sort, and with a consistent comparator every stable sort produces the
same list, so it is modelled by Mathlib's stable `insertionSort`. -/
def summaryRows (fr : List Run) : List SummaryRow :=
  (List.insertionSort trackLe (trackKeysOf fr)).map (mkRow fr)

/-- The user-visible signal of src/app.js:508-513: either the distinct
no-match message or the count message. -/
inductive PracticeMsg
  | noMatches
  | showing (n : ℕ)
deriving DecidableEq

/-- src/app.js:491-590 `renderPracticeSummary`, stripped of DOM work:
filter, then either signal no matches with an empty summary, or signal
the surviving count and emit the grouped rows. -/
def renderPracticeSummary (runs : List Run) (targetM tol : Option ℚ) :
    PracticeMsg × List SummaryRow :=
  let fr := filterRuns runs targetM tol
  if fr.isEmpty then (.noMatches, [])
  else (.showing fr.length, summaryRows fr)

/-!
### Meet mode (src/app.js:609-626 and 766-806)
-/

/-- One meet table row: two raw runs and the not-impounded flag. -/
structure MeetRow where
  run1 : RunInput
  run2 : RunInput
  notImpounded : Bool

/-- src/app.js:625 and 772: `Math.min(r1.score, r2.score)` of the two
independently computed run scores. -/
def meetBestOf2 (row : MeetRow) : ℚ :=
  min (computeScore row.run1).total (computeScore row.run2).total

/-- src/app.js:626 and 773: the best of two plus `5000` when the team is
not impounded. -/
def meetFinal (row : MeetRow) : ℚ :=
  meetBestOf2 row + (if row.notImpounded then 5000 else 0)

/-!
### Analysis helpers

`bestGo` is one component of the ranking loop in isolation (the loop of
src/app.js:544-561 updates the two accumulators independently, which is
proved as `rankSetups_eq` below).  `IsFirstMin` is the specification of
a first-encountered strict minimum among the entries with at least one
finite score.
-/

/-- One component of `rankPairStep`: keep the accumulator on an entry
with no finite score, else do one strict-improvement update. -/
def bestStep (val : SetupEntry → ℚ) (acc : Option SetupEntry) (e : SetupEntry) :
    Option SetupEntry :=
  if e.2.isEmpty then acc else rankStep val acc e

/-- One component of the ranking loop, as a fold from accumulator `acc`. -/
def bestGo (val : SetupEntry → ℚ) (acc : Option SetupEntry) (gs : List SetupEntry) :
    Option SetupEntry :=
  gs.foldl (bestStep val) acc

/-- Specification predicate: `c` is the first entry attaining the least `val` among the entries of
`gs` that have at least one finite score: every such entry before `c` is
strictly worse, every one after is no better. -/
def IsFirstMin (val : SetupEntry → ℚ) (gs : List SetupEntry) (c : SetupEntry) : Prop :=
  ∃ pre suf, gs = pre ++ c :: suf ∧ c.2 ≠ [] ∧
    (∀ e ∈ pre, e.2 ≠ [] → val c < val e) ∧
    (∀ e ∈ suf, e.2 ≠ [] → val c ≤ val e)

/-- Modelled from the spec, for the amended C3 claim only: the kept time
values, where a non-finite or negative entry is excluded and an empty
entry is coerced to `0` and included. -/
def keptTimesSpec (ts : List RawVal) : List ℚ :=
  ts.filterMap fun t =>
    match t with
    | .empty => some 0
    | .nonfinite => none
    | .val q => if 0 ≤ q then some q else none

/-- Modelled from the spec, for the amended C5 claim only: the effective
filter tolerance — the supplied tolerance when it is positive, else the
default `0.005`. -/
def effTolSpec : Option ℚ → ℚ
  | some tv => if 0 < tv then tv else 1/200
  | none => 1/200

/-!
### Concrete example data for the claims
-/

/-- A run at target 5.001 m with score 710 and zero setup fields. -/
def runT1 : Run := ⟨some ((5001 : ℚ)/1000), 0, 0, 0, some 710⟩

/-- A run at target 4.999 m with score 710 and zero setup fields. -/
def runT2 : Run := ⟨some ((4999 : ℚ)/1000), 0, 0, 0, some 710⟩

/-- A run at target 10 m. -/
def runX10 : Run := ⟨some 10, 0, 0, 0, some 700⟩

/-- A run at target 5 m. -/
def runY5 : Run := ⟨some 5, 0, 0, 0, some 650⟩

/-- The all-zero setup key: angle `0.0`, turns `0.00`, winds `0`. -/
def sk00 : SetupKey := ⟨⟨false, 0⟩, ⟨false, 0⟩, ⟨false, 0⟩⟩

/-- The track key rendered as the string `5.00`. -/
def key5 : TrackKey := .fixed ⟨false, 500⟩

/-- Runs with car angle 12.04, 12.06, 12.01 and 12.15 degrees (equal
dial turns 3 and winds 7). -/
def run1204 : Run := ⟨some 5, (1204 : ℚ)/100, 3, 7, some 700⟩

/-- Car angle 12.06 degrees, other fields as in `run1204`. -/
def run1206 : Run := ⟨some 5, (1206 : ℚ)/100, 3, 7, some 700⟩

/-- Car angle 12.01 degrees, other fields as in `run1204`. -/
def run1201 : Run := ⟨some 5, (1201 : ℚ)/100, 3, 7, some 700⟩

/-- Car angle 12.15 degrees, other fields as in `run1204`. -/
def run1215 : Run := ⟨some 5, (1215 : ℚ)/100, 3, 7, some 700⟩

/-- Setup A (angle 10): two runs at target 5 scoring 600 and 800
(average 700, best single 600). -/
def runA1 : Run := ⟨some 5, 10, 0, 0, some 600⟩

/-- Second run of setup A. -/
def runA2 : Run := ⟨some 5, 10, 0, 0, some 800⟩

/-- Setup B (angle 20): two runs at target 5 scoring 620 and 680
(average 650, best single 620). -/
def runB1 : Run := ⟨some 5, 20, 0, 0, some 620⟩

/-- Second run of setup B. -/
def runB2 : Run := ⟨some 5, 20, 0, 0, some 680⟩

/-- The four-run example collection for the ranking claim. -/
def fr4 : List Run := [runA1, runA2, runB1, runB2]

/-- The setup key of setup A: angle `10.0`, turns `0.00`, winds `0`. -/
def skA : SetupKey := ⟨⟨false, 100⟩, ⟨false, 0⟩, ⟨false, 0⟩⟩

/-- The setup key of setup B: angle `20.0`, turns `0.00`, winds `0`. -/
def skB : SetupKey := ⟨⟨false, 200⟩, ⟨false, 0⟩, ⟨false, 0⟩⟩

/-- A run at target 5.003 m, outside a zero tolerance of target 5 but
inside the default tolerance. -/
def run5003 : Run := ⟨some ((5003 : ℚ)/1000), 0, 0, 0, some 710⟩

/-- A run with unset (non-finite) target distance. -/
def runBlankT : Run := ⟨none, 0, 0, 0, some 1⟩

/-- A meet row with two scoring runs and the not-impounded flag set. -/
def meetEx : MeetRow :=
  ⟨⟨.val 300, .val 10, .val 10, .val 10, false, false, false, false⟩,
   ⟨.val 200, .val 10, .val 10, .val 10, false, false, false, false⟩, true⟩

/-!
### Shared lemmas
-/

lemma round2_eq_2500 : round2 2500 = 2500 := by with_unfolding_all rfl

lemma round2_eq_zero : round2 0 = 0 := by with_unfolding_all rfl

/-- The code's kept-time list (map `Number`, keep finite nonnegative)
coincides with the amended description `keptTimesSpec`. -/
lemma keptTimes_eq (ts : List RawVal) :
    ((ts.map RawVal.toNum).filterMap id).filter (fun v => decide (0 ≤ v)) = keptTimesSpec ts := by
  induction ts with
  | nil => rfl
  | cons t ts ih =>
    cases t with
    | empty =>
      simp only [keptTimesSpec, List.map_cons, List.filterMap_cons, RawVal.toNum]
      simpa [keptTimesSpec, List.filter_cons] using ih
    | nonfinite =>
      simpa [keptTimesSpec, List.map_cons, List.filterMap_cons, RawVal.toNum] using ih
    | val q =>
      by_cases hq : 0 ≤ q
      · simp only [keptTimesSpec, List.map_cons, List.filterMap_cons, RawVal.toNum] at *
        simpa [List.filter_cons, hq] using ih
      · simp only [keptTimesSpec, List.map_cons, List.filterMap_cons, RawVal.toNum] at *
        simpa [List.filter_cons, hq] using ih

/-- Filtering the empty run list yields the empty list in every branch. -/
lemma filterRuns_nil (targetM tol : Option ℚ) : filterRuns [] targetM tol = [] := by
  unfold filterRuns
  cases targetM with
  | none => rfl
  | some t =>
    cases tol with
    | none => rfl
    | some tv => by_cases h : 0 < tv <;> simp [h]

/-- The summary rows carry exactly the sorted key sequence. -/
lemma summaryRows_map_key (fr : List Run) :
    (summaryRows fr).map SummaryRow.trackGroupM = List.insertionSort trackLe (trackKeysOf fr) := by
  unfold summaryRows
  rw [List.map_map]
  have h : SummaryRow.trackGroupM ∘ mkRow fr = id := funext fun k => rfl
  rw [h, List.map_id]

/-- The combined ranking fold computes its two components independently. -/
lemma rankSetups_eq (gs : List SetupEntry) :
    rankSetups gs = (bestGo avgOf none gs, bestGo minOf none gs) := by
  unfold rankSetups bestGo
  suffices h : ∀ (a s : Option SetupEntry),
      gs.foldl rankPairStep (a, s) =
        (gs.foldl (bestStep avgOf) a, gs.foldl (bestStep minOf) s) from h none none
  induction gs with
  | nil => intro a s; rfl
  | cons e gs ih =>
    intro a s
    simp only [List.foldl_cons]
    by_cases he : e.2.isEmpty <;>
      simp only [rankPairStep, bestStep, he, if_true, if_false, ite_true, ite_false] <;>
      exact ih _ _

/-- Running the ranking fold from an occupied accumulator either keeps
the accumulator (then it is no worse than every scored entry) or picks a
first strict minimum that strictly improves on it. -/
lemma bestGo_some (val : SetupEntry → ℚ) (gs : List SetupEntry) :
    ∀ b : SetupEntry,
      (bestGo val (some b) gs = some b ∧ ∀ e ∈ gs, e.2 ≠ [] → val b ≤ val e) ∨
      (∃ c, bestGo val (some b) gs = some c ∧ val c < val b ∧ IsFirstMin val gs c) := by
  induction gs with
  | nil =>
    intro b
    exact Or.inl ⟨rfl, by simp⟩
  | cons e gs ih =>
    intro b
    by_cases he : e.2.isEmpty
    · have hne : e.2 = [] := List.isEmpty_iff.mp he
      have hstep : bestGo val (some b) (e :: gs) = bestGo val (some b) gs := by
        simp [bestGo, bestStep, he]
      rcases ih b with ⟨h1, h2⟩ | ⟨c, hc, hlt, pre, suf, hsplit, hcne, hpre, hsuf⟩
      · refine Or.inl ⟨hstep ▸ h1, ?_⟩
        intro x hx hxne
        rcases List.mem_cons.mp hx with hxe | hxgs
        · exact absurd (hxe ▸ hne) hxne
        · exact h2 x hxgs hxne
      · refine Or.inr ⟨c, hstep ▸ hc, hlt, e :: pre, suf, by rw [hsplit]; rfl, hcne, ?_, hsuf⟩
        intro x hx hxne
        rcases List.mem_cons.mp hx with hxe | hxpre
        · exact absurd (hxe ▸ hne) hxne
        · exact hpre x hxpre hxne
    · have hne : e.2 ≠ [] := fun h => he (List.isEmpty_iff.mpr h)
      by_cases hlt : val e < val b
      · have hstep : bestGo val (some b) (e :: gs) = bestGo val (some e) gs := by
          simp [bestGo, bestStep, he, rankStep, hlt]
        rcases ih e with ⟨h1, h2⟩ | ⟨c, hc, hlt2, pre, suf, hsplit, hcne, hpre, hsuf⟩
        · exact Or.inr ⟨e, hstep ▸ h1, hlt, [], gs, rfl, hne, by simp, h2⟩
        · refine Or.inr ⟨c, hstep ▸ hc, lt_trans hlt2 hlt, e :: pre, suf,
            by rw [hsplit]; rfl, hcne, ?_, hsuf⟩
          intro x hx hxne
          rcases List.mem_cons.mp hx with hxe | hxpre
          · exact hxe ▸ hlt2
          · exact hpre x hxpre hxne
      · have hble : val b ≤ val e := le_of_not_lt hlt
        have hstep : bestGo val (some b) (e :: gs) = bestGo val (some b) gs := by
          simp [bestGo, bestStep, he, rankStep, hlt]
        rcases ih b with ⟨h1, h2⟩ | ⟨c, hc, hltc, pre, suf, hsplit, hcne, hpre, hsuf⟩
        · refine Or.inl ⟨hstep ▸ h1, ?_⟩
          intro x hx hxne
          rcases List.mem_cons.mp hx with hxe | hxgs
          · exact hxe ▸ hble
          · exact h2 x hxgs hxne
        · refine Or.inr ⟨c, hstep ▸ hc, hltc, e :: pre, suf, by rw [hsplit]; rfl, hcne, ?_, hsuf⟩
          intro x hx hxne
          rcases List.mem_cons.mp hx with hxe | hxpre
          · exact hxe ▸ lt_of_lt_of_le hltc hble
          · exact hpre x hxpre hxne

/-- Running the ranking fold from the empty accumulator either sees no
scored entry at all, or returns the first strict minimum. -/
lemma bestGo_none (val : SetupEntry → ℚ) (gs : List SetupEntry) :
    (bestGo val none gs = none ∧ ∀ e ∈ gs, e.2 = []) ∨
    (∃ c, bestGo val none gs = some c ∧ IsFirstMin val gs c) := by
  induction gs with
  | nil => exact Or.inl ⟨rfl, by simp⟩
  | cons e gs ih =>
    by_cases he : e.2.isEmpty
    · have hne : e.2 = [] := List.isEmpty_iff.mp he
      have hstep : bestGo val none (e :: gs) = bestGo val none gs := by
        simp [bestGo, bestStep, he]
      rcases ih with ⟨h1, h2⟩ | ⟨c, hc, pre, suf, hsplit, hcne, hpre, hsuf⟩
      · refine Or.inl ⟨hstep ▸ h1, ?_⟩
        intro x hx
        rcases List.mem_cons.mp hx with hxe | hxgs
        · exact hxe ▸ hne
        · exact h2 x hxgs
      · refine Or.inr ⟨c, hstep ▸ hc, e :: pre, suf, by rw [hsplit]; rfl, hcne, ?_, hsuf⟩
        intro x hx hxne
        rcases List.mem_cons.mp hx with hxe | hxpre
        · exact absurd (hxe ▸ hne) hxne
        · exact hpre x hxpre hxne
    · have hne : e.2 ≠ [] := fun h => he (List.isEmpty_iff.mpr h)
      have hstep : bestGo val none (e :: gs) = bestGo val (some e) gs := by
        simp [bestGo, bestStep, he, rankStep]
      rcases bestGo_some val gs e with ⟨h1, h2⟩ | ⟨c, hc, hlt, pre, suf, hsplit, hcne, hpre, hsuf⟩
      · exact Or.inr ⟨e, hstep ▸ h1, [], gs, rfl, hne, by simp, h2⟩
      · refine Or.inr ⟨c, hstep ▸ hc, e :: pre, suf, by rw [hsplit]; rfl, hcne, ?_, hsuf⟩
        intro x hx hxne
        rcases List.mem_cons.mp hx with hxe | hxpre
        · exact hxe ▸ hlt
        · exact hpre x hxpre hxne

/-- Membership in one filter pass, characterised. -/
lemma mem_filter_target (runs : List Run) (t : ℚ) (r : Run) (tolEff : ℚ) :
    r ∈ runs.filter (fun x => x.targetDistanceM.isSome && approxEq (num x.targetDistanceM) t tolEff) ↔
      r ∈ runs ∧ ∃ d : ℚ, r.targetDistanceM = some d ∧ |d - t| ≤ tolEff := by
  rw [List.mem_filter]
  constructor
  · rintro ⟨hr, hp⟩
    refine ⟨hr, ?_⟩
    cases hd : r.targetDistanceM with
    | none => rw [hd] at hp; simp [approxEq] at hp
    | some d =>
      refine ⟨d, rfl, ?_⟩
      rw [hd] at hp
      simpa [approxEq, num] using hp
  · rintro ⟨hr, d, hd, hle⟩
    refine ⟨hr, ?_⟩
    rw [hd]
    simpa [approxEq, num] using hle

/-- Concrete evaluation: the two near-5 runs summarise to a single
track group keyed `5.00`, for every tolerance setting (the filter is
inactive without a target). -/
lemma summary_pair_eval (tol : Option ℚ) :
    renderPracticeSummary [runT1, runT2] none tol =
      (.showing 2, [⟨key5, 2, some 710, some 710, some (sk00, 710, 2), some (sk00, 710)⟩]) := by
  have hf : filterRuns [runT1, runT2] none tol = [runT1, runT2] := rfl
  have hk : trackKeysOf [runT1, runT2] = [key5] := by with_unfolding_all rfl
  have hr : mkRow [runT1, runT2] key5 =
      ⟨key5, 2, some 710, some 710, some (sk00, 710, 2), some (sk00, 710)⟩ := by
    with_unfolding_all rfl
  simp only [renderPracticeSummary, hf, List.isEmpty_cons, summaryRows, hk]
  simp [hr]

/-- Concrete evaluation: targets 10 and 5 (entered in that order) are
listed 5.00 first — numeric ascending order of the keys, which is the
reverse of their lexicographic string order. -/
lemma summary_numeric_order_eval :
    ((renderPracticeSummary [runX10, runY5] none none).2).map SummaryRow.trackGroupM =
      [key5, TrackKey.fixed ⟨false, 1000⟩] := by
  have hf : filterRuns [runX10, runY5] none none = [runX10, runY5] := rfl
  simp only [renderPracticeSummary, hf, List.isEmpty_cons]
  simp only [ite_false, Bool.false_eq_true]
  rw [summaryRows_map_key]
  with_unfolding_all rfl

/-!
### Claim theorems
-/

/-- C1: for every `RunInput`, `computeScore` returns
`total = round2 (100 + 2·distanceUsed + timeAverage + bucket + cv + conv)`
with the flag contributions `-100`, `150`, `300`; the example input
(300 cm, three 10 s times, no flags) totals 710, with the bucket bonus
610, and with both violation flags (from the 710 baseline) 1160. -/
theorem claim_C1 :
    (∀ inp : RunInput,
      (computeScore inp).total =
        round2 (100 + 2 * (if inp.failedRun then 2500 else num inp.vehicleDistanceCm.toNum)
          + (if inp.failedRun then 0 else avgOfTimes inp.time1 inp.time2 inp.time3)
          + (if inp.bucketBonus then -100 else 0)
          + (if inp.competitionViolationPoints then 150 else 0)
          + (if inp.constructionViolationPoints then 300 else 0)))
    ∧ (computeScore ⟨.val 300, .val 10, .val 10, .val 10, false, false, false, false⟩).total = 710
    ∧ (computeScore ⟨.val 300, .val 10, .val 10, .val 10, true, false, false, false⟩).total = 610
    ∧ (computeScore ⟨.val 300, .val 10, .val 10, .val 10, false, false, true, true⟩).total = 1160 := by
  refine ⟨fun inp => rfl, ?_, ?_, ?_⟩ <;> with_unfolding_all rfl

/-- C2: a failed run forces the scored distance to 2500 and the time
contribution to 0, whatever the distance and time fields contain; the
total is then `round2 (100 + 5000 + bucket + cv + conv)`. -/
theorem claim_C2 (inp : RunInput) (h : inp.failedRun = true) :
    (computeScore inp).breakdown.distCm = 2500 ∧
    (computeScore inp).timeAvg = 0 ∧
    (computeScore inp).breakdown.timeAvg = 0 ∧
    (computeScore inp).total =
      round2 (5100 + (if inp.bucketBonus then -100 else 0)
        + (if inp.competitionViolationPoints then 150 else 0)
        + (if inp.constructionViolationPoints then 300 else 0)) := by
  unfold computeScore
  simp only [h, if_true, ite_true]
  refine ⟨round2_eq_2500, round2_eq_zero, round2_eq_zero, ?_⟩
  congr 1
  ring

/-- Witness for C2 at a concrete failed run with junk distance and
times. -/
theorem claim_C2_witness :
    (computeScore ⟨.val 123, .val 9, .val 8, .val 7, false, true, false, false⟩).breakdown.distCm = 2500 ∧
    (computeScore ⟨.val 123, .val 9, .val 8, .val 7, false, true, false, false⟩).timeAvg = 0 ∧
    (computeScore ⟨.val 123, .val 9, .val 8, .val 7, false, true, false, false⟩).breakdown.timeAvg = 0 ∧
    (computeScore ⟨.val 123, .val 9, .val 8, .val 7, false, true, false, false⟩).total =
      round2 (5100 + 0 + 0 + 0) :=
  claim_C2 ⟨.val 123, .val 9, .val 8, .val 7, false, true, false, false⟩ rfl

/-- C3 counterexample: the claim says an empty time entry is excluded
from the average, so `time1 = 5` with two empty entries would average 5;
the code coerces the empty entries to 0 and averages to 5/3. -/
theorem claim_C3_cex :
    avgOfTimes (.val 5) .empty .empty = 5/3 ∧ ((5 : ℚ)/3) ≠ 5 := by
  constructor
  · with_unfolding_all rfl
  · norm_num

/-- C3 amended: a non-finite or negative time entry is excluded and an
empty entry is coerced to 0 and included; the average is the arithmetic
mean of the kept values, 0 when none remain; `5, -1, NaN` averages 5 and
three non-finite (missing) entries average 0 rather than an error. -/
theorem claim_C3_amended :
    (∀ t1 t2 t3 : RawVal,
      avgOfTimes t1 t2 t3 =
        if keptTimesSpec [t1, t2, t3] = [] then 0
        else (keptTimesSpec [t1, t2, t3]).sum / ((keptTimesSpec [t1, t2, t3]).length : ℚ)) ∧
    avgOfTimes (.val 5) (.val (-1)) .nonfinite = 5 ∧
    avgOfTimes .nonfinite .nonfinite .nonfinite = 0 := by
  refine ⟨?_, by with_unfolding_all rfl, by with_unfolding_all rfl⟩
  intro t1 t2 t3
  unfold avgOfTimes
  rw [keptTimes_eq [t1, t2, t3]]
  rcases h : keptTimesSpec [t1, t2, t3] with _ | ⟨a, l⟩
  · simp
  · simp

/-- C4 counterexample: with `failedRun = false` and a negative measured
distance, the distance is used as-is, so the distance contribution is
`-10`, not 0. -/
theorem claim_C4_cex :
    (computeScore ⟨.val (-5), .nonfinite, .nonfinite, .nonfinite,
       false, false, false, false⟩).breakdown.distanceScore = -10 ∧
    ((-10 : ℚ) ≠ 0) := by
  constructor
  · with_unfolding_all rfl
  · norm_num

/-- C4 amended: with `failedRun = false`, a missing (non-finite) or
empty distance is treated as 0, making the distance contribution 0; a
finite distance — including a negative one — is used as-is. -/
theorem claim_C4_amended (inp : RunInput) (h : inp.failedRun = false) :
    ((inp.vehicleDistanceCm = .nonfinite ∨ inp.vehicleDistanceCm = .empty) →
       (computeScore inp).breakdown.distCm = 0 ∧
       (computeScore inp).breakdown.distanceScore = 0) ∧
    (∀ q : ℚ, inp.vehicleDistanceCm = .val q →
       (computeScore inp).breakdown.distCm = round2 q ∧
       (computeScore inp).breakdown.distanceScore = round2 (2 * q)) := by
  constructor
  · rintro (hd | hd) <;>
      simp [computeScore, h, hd, num, RawVal.toNum, round2_eq_zero, mul_zero]
  · intro q hd
    simp [computeScore, h, hd, num, RawVal.toNum]

/-- Witness for C4 amended: a non-finite distance scores 0, and the
distance `-5` is carried into the breakdown as-is. -/
theorem claim_C4_witness :
    (computeScore ⟨.nonfinite, .nonfinite, .nonfinite, .nonfinite,
       false, false, false, false⟩).breakdown.distanceScore = 0 ∧
    (computeScore ⟨.val (-5), .nonfinite, .nonfinite, .nonfinite,
       false, false, false, false⟩).breakdown.distCm = round2 (-5) :=
  ⟨((claim_C4_amended ⟨.nonfinite, .nonfinite, .nonfinite, .nonfinite,
       false, false, false, false⟩ rfl).1 (Or.inl rfl)).2,
   ((claim_C4_amended ⟨.val (-5), .nonfinite, .nonfinite, .nonfinite,
       false, false, false, false⟩ rfl).2 (-5) rfl).1⟩

/-- C5 counterexample: with a supplied tolerance of 0, the claim keeps
exactly the runs with `|target − t| ≤ 0`; the code falls back to the
default tolerance and keeps a run 0.003 m away from the target. -/
theorem claim_C5_cex :
    filterRuns [run5003] (some 5) (some 0) = [run5003] ∧
    ¬ (|num run5003.targetDistanceM - 5| ≤ (0 : ℚ)) := by
  constructor
  · with_unfolding_all rfl
  · show ¬ (|(5003 : ℚ)/1000 - 5| ≤ 0)
    rw [show ((5003 : ℚ)/1000 - 5) = 3/1000 by norm_num,
      abs_of_pos (by norm_num : (0 : ℚ) < 3/1000)]
    norm_num

/-- C5 amended: when a target filter is active, exactly those runs whose
`targetDistanceM` is set and within the effective tolerance of the
target are kept, where the effective tolerance is the supplied tolerance
when positive and the default 0.005 otherwise (not supplied, zero, or
negative); runs with unset `targetDistanceM` are always excluded. -/
theorem claim_C5_amended (runs : List Run) (t : ℚ) (tol : Option ℚ) (r : Run) :
    (r ∈ filterRuns runs (some t) tol ↔
       r ∈ runs ∧ ∃ d : ℚ, r.targetDistanceM = some d ∧ |d - t| ≤ effTolSpec tol) ∧
    (r.targetDistanceM = none → r ∉ filterRuns runs (some t) tol) := by
  have hiff : r ∈ filterRuns runs (some t) tol ↔
      r ∈ runs ∧ ∃ d : ℚ, r.targetDistanceM = some d ∧ |d - t| ≤ effTolSpec tol := by
    cases tol with
    | none =>
      have hred : filterRuns runs (some t) none =
          runs.filter (fun x => x.targetDistanceM.isSome && approxEq (num x.targetDistanceM) t (1/200)) := rfl
      rw [hred]
      simpa [effTolSpec] using mem_filter_target runs t r (1/200)
    | some tv =>
      have hred : filterRuns runs (some t) (some tv) =
          if 0 < tv then
            runs.filter (fun x => x.targetDistanceM.isSome && approxEq (num x.targetDistanceM) t tv)
          else
            runs.filter (fun x => x.targetDistanceM.isSome && approxEq (num x.targetDistanceM) t (1/200)) := rfl
      rw [hred]
      by_cases h : 0 < tv
      · rw [if_pos h]
        simpa [effTolSpec, h] using mem_filter_target runs t r tv
      · rw [if_neg h]
        simpa [effTolSpec, h] using mem_filter_target runs t r (1/200)
  refine ⟨hiff, fun hnone hmem => ?_⟩
  rcases (hiff.mp hmem).2 with ⟨d, hd, _⟩
  rw [hnone] at hd
  exact Option.noConfusion hd

/-- Witness for C5 amended: a run with unset target is dropped by an
active filter, and a run 0.003 m from the target passes the default
tolerance. -/
theorem claim_C5_witness :
    runBlankT ∉ filterRuns [runBlankT] (some 5) none ∧
    run5003 ∈ filterRuns [run5003] (some 5) none :=
  ⟨(claim_C5_amended [runBlankT] 5 none runBlankT).2 rfl,
   (claim_C5_amended [run5003] 5 none run5003).1.mpr
     ⟨List.mem_singleton_self _, 5003/1000, rfl, by
        rw [show ((5003 : ℚ)/1000 - 5) = 3/1000 by norm_num,
          abs_of_pos (by norm_num : (0 : ℚ) < 3/1000)]
        norm_num [effTolSpec]⟩⟩

/-- C6: targets 5.001 and 4.999 both key to `5.00` (and unset or zero
targets to the sentinel); the two runs land in one group of count 2 for
every filter-tolerance setting; a 10 m and a 5 m group are listed with
5.00 first (numeric, not string, order); and in every summary the rows
are sorted with the sentinel last and the other keys numerically
ascending (`trackLe`). -/
theorem claim_C6 :
    trackKey (some ((5001 : ℚ)/1000)) = key5 ∧
    trackKey (some ((4999 : ℚ)/1000)) = key5 ∧
    trackKey none = .blank ∧
    trackKey (some 0) = .blank ∧
    (∀ tol : Option ℚ,
      renderPracticeSummary [runT1, runT2] none tol =
        (.showing 2, [⟨key5, 2, some 710, some 710, some (sk00, 710, 2), some (sk00, 710)⟩])) ∧
    ((renderPracticeSummary [runX10, runY5] none none).2).map SummaryRow.trackGroupM =
      [key5, TrackKey.fixed ⟨false, 1000⟩] ∧
    (∀ (runs : List Run) (targetM tol : Option ℚ),
      List.Sorted trackLe (((renderPracticeSummary runs targetM tol).2).map SummaryRow.trackGroupM)) := by
  refine ⟨by with_unfolding_all rfl, by with_unfolding_all rfl, rfl, rfl,
    summary_pair_eval, summary_numeric_order_eval, ?_⟩
  intro runs targetM tol
  unfold renderPracticeSummary
  by_cases h : (filterRuns runs targetM tol).isEmpty
  · simp [h]
  · simp only [h, Bool.false_eq_true, ite_false, if_false]
    rw [summaryRows_map_key]
    exact List.sorted_insertionSort trackLe _

/-- C7 counterexample: car angles 12.04 and 12.06 (equal other setup
fields) render as `12.0` and `12.1` and give different setup keys, where
the claim says they agree. -/
theorem claim_C7_cex : setupKey run1204 ≠ setupKey run1206 := by
  have h4 : setupKey run1204 = ⟨⟨false, 120⟩, ⟨false, 300⟩, ⟨false, 7⟩⟩ := by
    with_unfolding_all rfl
  have h6 : setupKey run1206 = ⟨⟨false, 121⟩, ⟨false, 300⟩, ⟨false, 7⟩⟩ := by
    with_unfolding_all rfl
  rw [h4, h6]
  decide

/-- C7 amended: two runs share a `SetupKey` exactly when their
`(carAngleDeg, dialTurns, winds)` triples agree after rounding to 1, 2
and 0 decimals; car angles 12.04 and 12.01 share a key (both round to
12.0), while 12.04 and 12.15 do not (12.0 vs 12.2), nor do 12.04 and
12.06 (12.0 vs 12.1, see the counterexample). -/
theorem claim_C7_amended :
    (∀ r r' : Run, setupKey r = setupKey r' ↔
       (toFixed 1 r.carAngleDeg = toFixed 1 r'.carAngleDeg ∧
        toFixed 2 r.dialTurns = toFixed 2 r'.dialTurns ∧
        toFixed 0 r.winds = toFixed 0 r'.winds)) ∧
    setupKey run1204 = setupKey run1201 ∧
    setupKey run1204 ≠ setupKey run1215 := by
  refine ⟨?_, by with_unfolding_all rfl, ?_⟩
  · intro r r'
    simp [setupKey, SetupKey.mk.injEq]
  · have h4 : setupKey run1204 = ⟨⟨false, 120⟩, ⟨false, 300⟩, ⟨false, 7⟩⟩ := by
      with_unfolding_all rfl
    have h5 : setupKey run1215 = ⟨⟨false, 122⟩, ⟨false, 300⟩, ⟨false, 7⟩⟩ := by
      with_unfolding_all rfl
    rw [h4, h5]
    decide

/-- Concrete evaluation of the ranking example: setup B (averages 650
over scores 620, 680) is best by average, setup A (single best 600 of
600, 800) is best by single. -/
lemma mkRow_rank_eval :
    (mkRow fr4 key5).bestSetupByAvg = some (skB, 650, 2) ∧
    (mkRow fr4 key5).bestSetupBySingle = some (skA, 600) := by
  constructor <;> with_unfolding_all rfl

/-- C8: within a track group, best-by-average is the setup sub-group
with the least mean (reported with its rounded mean and sample count)
and best-by-single the one with the least single score (reported
rounded); in both cases ties go to the first-encountered setup in
insertion order (`IsFirstMin`); on the example group the two selections
disagree: averages 700 vs 650 pick setup B, singles 600 vs 620 pick
setup A. -/
theorem claim_C8 (fr : List Run) (k : TrackKey) :
    (∀ (sk : SetupKey) (v : ℚ) (n : ℕ),
       (mkRow fr k).bestSetupByAvg = some (sk, v, n) →
       ∃ e, e.1 = sk ∧ v = round2 (avgOf e) ∧ n = e.2.length ∧
         IsFirstMin avgOf (setupGroupsOf (trackGroup fr k)) e) ∧
    (∀ (sk : SetupKey) (v : ℚ),
       (mkRow fr k).bestSetupBySingle = some (sk, v) →
       ∃ e, e.1 = sk ∧ v = round2 (minOf e) ∧
         IsFirstMin minOf (setupGroupsOf (trackGroup fr k)) e) ∧
    (mkRow fr4 key5).bestSetupByAvg = some (skB, 650, 2) ∧
    (mkRow fr4 key5).bestSetupBySingle = some (skA, 600) := by
  refine ⟨?_, ?_, mkRow_rank_eval.1, mkRow_rank_eval.2⟩
  · intro sk v n hsome
    have hfield : (mkRow fr k).bestSetupByAvg =
        (rankSetups (setupGroupsOf (trackGroup fr k))).1.map
          (fun e => (e.1, round2 (avgOf e), e.2.length)) := rfl
    rw [hfield, rankSetups_eq] at hsome
    rcases Option.map_eq_some'.mp hsome with ⟨e, he, hfe⟩
    rcases bestGo_none avgOf (setupGroupsOf (trackGroup fr k)) with ⟨hn, _⟩ | ⟨c, hc, hfm⟩
    · rw [hn] at he
      exact Option.noConfusion he
    · obtain rfl : c = e := Option.some.inj (hc.symm.trans he)
      simp only [Prod.mk.injEq] at hfe
      exact ⟨c, hfe.1, hfe.2.1.symm, hfe.2.2.symm, hfm⟩
  · intro sk v hsome
    have hfield : (mkRow fr k).bestSetupBySingle =
        (rankSetups (setupGroupsOf (trackGroup fr k))).2.map
          (fun e => (e.1, round2 (minOf e))) := rfl
    rw [hfield, rankSetups_eq] at hsome
    rcases Option.map_eq_some'.mp hsome with ⟨e, he, hfe⟩
    rcases bestGo_none minOf (setupGroupsOf (trackGroup fr k)) with ⟨hn, _⟩ | ⟨c, hc, hfm⟩
    · rw [hn] at he
      exact Option.noConfusion he
    · obtain rfl : c = e := Option.some.inj (hc.symm.trans he)
      simp only [Prod.mk.injEq] at hfe
      exact ⟨c, hfe.1, hfe.2.symm, hfm⟩

/-- Witness for C8: on the example group, the reported best-by-average
setup really is a first-encountered strict minimum of the mean. -/
theorem claim_C8_witness :
    ∃ e, e.1 = skB ∧ (650 : ℚ) = round2 (avgOf e) ∧ 2 = e.2.length ∧
      IsFirstMin avgOf (setupGroupsOf (trackGroup fr4 key5)) e :=
  (claim_C8 fr4 key5).1 skB 650 2 mkRow_rank_eval.1

/-- C9: an empty run collection, or one the active filter empties,
yields the distinct no-match signal with an empty summary rather than an
error; otherwise the (total) aggregation reports the surviving count and
the grouped rows — it is defined for every input. -/
theorem claim_C9 (runs : List Run) (targetM tol : Option ℚ) :
    (renderPracticeSummary runs targetM tol = (.noMatches, []) ↔
       filterRuns runs targetM tol = []) ∧
    (runs = [] → renderPracticeSummary runs targetM tol = (.noMatches, [])) ∧
    (∀ n : ℕ, PracticeMsg.noMatches ≠ PracticeMsg.showing n) ∧
    (filterRuns runs targetM tol ≠ [] →
       renderPracticeSummary runs targetM tol =
         (.showing (filterRuns runs targetM tol).length,
          summaryRows (filterRuns runs targetM tol))) := by
  by_cases h : (filterRuns runs targetM tol).isEmpty
  · have h' := List.isEmpty_iff.mp h
    have hres : renderPracticeSummary runs targetM tol = (.noMatches, []) := by
      unfold renderPracticeSummary
      simp [h]
    exact ⟨⟨fun _ => h', fun _ => hres⟩, fun _ => hres,
      fun n hn => PracticeMsg.noConfusion hn, fun hne => absurd h' hne⟩
  · have h' : filterRuns runs targetM tol ≠ [] := fun hh => h (List.isEmpty_iff.mpr hh)
    have hres : renderPracticeSummary runs targetM tol =
        (.showing (filterRuns runs targetM tol).length,
         summaryRows (filterRuns runs targetM tol)) := by
      unfold renderPracticeSummary
      simp [h]
    refine ⟨⟨fun hcontr => ?_, fun hh => absurd hh h'⟩, fun hruns => ?_,
      fun n hn => PracticeMsg.noConfusion hn, fun _ => hres⟩
    · rw [hres] at hcontr
      simp at hcontr
    · subst hruns
      exact absurd (filterRuns_nil targetM tol) h'

/-- Witness for C9: the empty collection, and a collection the active
filter empties, both signal no matches with an empty summary. -/
theorem claim_C9_witness :
    renderPracticeSummary [] (some 5) none = (.noMatches, []) ∧
    renderPracticeSummary [runBlankT] (some 5) none = (.noMatches, []) :=
  ⟨(claim_C9 [] (some 5) none).2.1 rfl,
   (claim_C9 [runBlankT] (some 5) none).1.mpr rfl⟩

/-- C10: for every meet row the best-of-two is the minimum (lower is
better) of the two independently computed run scores, and the final
score adds the fixed 5000-point penalty exactly when `notImpounded` is
set. -/
theorem claim_C10 (row : MeetRow) :
    meetBestOf2 row = min (computeScore row.run1).total (computeScore row.run2).total ∧
    meetBestOf2 row ≤ (computeScore row.run1).total ∧
    meetBestOf2 row ≤ (computeScore row.run2).total ∧
    (meetBestOf2 row = (computeScore row.run1).total ∨
     meetBestOf2 row = (computeScore row.run2).total) ∧
    (row.notImpounded = true → meetFinal row = meetBestOf2 row + 5000) ∧
    (row.notImpounded = false → meetFinal row = meetBestOf2 row) := by
  refine ⟨rfl, min_le_left _ _, min_le_right _ _, min_choice _ _, ?_, ?_⟩ <;>
    intro h <;> simp [meetFinal, h]

/-- Witness for C10 at a concrete not-impounded meet row. -/
theorem claim_C10_witness :
    meetFinal meetEx = meetBestOf2 meetEx + 5000 :=
  (claim_C10 meetEx).2.2.2.2.1 rfl

end Scrambler
